import Mathlib

/-!
Verification of the order-book acquisition, caching, and depth-filtering core
of the total3-limits-bot repository.

The Rust source (src/state.rs, src/order_book.rs, src/binance.rs, src/redis.rs,
src/error.rs) is shallowly embedded here:

* `rust_decimal::Decimal` is modelled by `Decimal`, a pair of an integer
  mantissa `m` and a decimal scale `e`, denoting the value `m / 10 ^ e`.
  Comparison and equality on `rust_decimal::Decimal` are by numeric value,
  which is `dle` / `deq` below (cross-multiplied integer comparisons).
  `dval` maps a `Decimal` to the rational number it denotes.
* The pure depth-filter pipeline (`find_border_price`, `trim_order_book`,
  `sort_and_filter`, `process_order_book`) is translated from src/state.rs,
  the variant wired into `AppState::get_filtered_order_book` and main.rs.
  Rust's `Vec::sort_by` is a stable sort by the given comparator; it is
  embedded as `List.insertionSort`, the canonical stable sort with respect
  to the same total preorder.
* The effectful cache-aside and registry code is embedded as pure functions
  over the outcomes of the external collaborators (cache read, live fetch,
  cache write), mirroring the `match` structure of the Rust code.
* Rust `String`s are Lean `String`s; `str::to_uppercase` is modelled
  per-character by `Char.toUpper` (the ASCII case mapping, which agrees with
  Rust on all symbols this program handles), and `str::ends_with` by a
  decidable list-suffix test on the underlying character lists.
-/

namespace Total3

/-- Model of `rust_decimal::Decimal`: mantissa `m` at decimal scale `e`,
denoting `m / 10 ^ e`.  The 96-bit mantissa bound of `rust_decimal` is not
modelled; within that bound all operations used by this program are exact. -/
structure Decimal where
  m : Int
  e : Nat
deriving DecidableEq

/-- The rational value denoted by a `Decimal`. -/
def dval (d : Decimal) : ℚ := (d.m : ℚ) / 10 ^ d.e

/-- Value-level `≤` on `Decimal` (model of `rust_decimal`'s `Ord`/`PartialOrd`,
which compares by numeric value): cross-multiplied integer comparison. -/
def dle (a b : Decimal) : Prop := a.m * 10 ^ b.e ≤ b.m * 10 ^ a.e

/-- Value-level `<` on `Decimal`. -/
def dlt (a b : Decimal) : Prop := a.m * 10 ^ b.e < b.m * 10 ^ a.e

/-- Value-level equality on `Decimal` (model of `rust_decimal`'s `PartialEq`,
which identifies e.g. `0.500` and `0.5`). -/
def deq (a b : Decimal) : Prop := a.m * 10 ^ b.e = b.m * 10 ^ a.e

instance (a b : Decimal) : Decidable (dle a b) := by unfold dle; infer_instance

instance (a b : Decimal) : Decidable (dlt a b) := by unfold dlt; infer_instance

instance (a b : Decimal) : Decidable (deq a b) := by unfold deq; infer_instance

theorem dle_iff (a b : Decimal) : dle a b ↔ dval a ≤ dval b := by
  unfold dle dval
  rw [div_le_div_iff₀ (by positivity) (by positivity)]
  constructor
  · intro h; exact_mod_cast h
  · intro h; exact_mod_cast h

theorem dlt_iff (a b : Decimal) : dlt a b ↔ dval a < dval b := by
  unfold dlt dval
  rw [div_lt_div_iff₀ (by positivity) (by positivity)]
  constructor
  · intro h; exact_mod_cast h
  · intro h; exact_mod_cast h

theorem deq_iff (a b : Decimal) : deq a b ↔ dval a = dval b := by
  unfold deq dval
  rw [div_eq_div_iff (by positivity) (by positivity)]
  constructor
  · intro h; exact_mod_cast h
  · intro h; exact_mod_cast h

/-- Model of `Decimal::ONE`. -/
def decOne : Decimal := ⟨1, 0⟩

/-- A `Decimal` with integer value `n` at scale `0`. -/
def decInt (n : Int) : Decimal := ⟨n, 0⟩

/-- Model of `Decimal` addition: operands are brought to the common (larger)
scale and the mantissas are added; exact within the modelled range. -/
def decAdd (a b : Decimal) : Decimal :=
  ⟨a.m * 10 ^ (max a.e b.e - a.e) + b.m * 10 ^ (max a.e b.e - b.e), max a.e b.e⟩

/-- Model of `Decimal` subtraction, analogous to `decAdd`. -/
def decSub (a b : Decimal) : Decimal :=
  ⟨a.m * 10 ^ (max a.e b.e - a.e) - b.m * 10 ^ (max a.e b.e - b.e), max a.e b.e⟩

/-- Model of `Decimal` multiplication: mantissas multiply, scales add. -/
def decMul (a b : Decimal) : Decimal := ⟨a.m * b.m, a.e + b.e⟩

/-- Model of `depth / Decimal::ONE_HUNDRED` (src/state.rs line 33): dividing
by one hundred raises the scale by two; this is exactly what `rust_decimal`
division produces here (the division is exact). -/
def decDiv100 (d : Decimal) : Decimal := ⟨d.m, d.e + 2⟩

/-- Model of `Decimal::trunc_with_scale` (rust_decimal): if the current scale
is at most `n` the number is unchanged, otherwise the extra mantissa digits
are dropped, truncating toward zero. -/
def Decimal.trunc_with_scale (d : Decimal) (n : Nat) : Decimal :=
  if d.e ≤ n then d else ⟨d.m.tdiv (10 ^ (d.e - n)), n⟩

/-- Helper for `Decimal.normalize`: strip factors of ten from the mantissa
while the scale is positive. -/
def normLoop : Int → Nat → Decimal
  | m, 0 => ⟨m, 0⟩
  | m, e + 1 => if m % 10 = 0 then normLoop (m.tdiv 10) e else ⟨m, e + 1⟩

/-- Model of `Decimal::normalize` (rust_decimal): strip trailing zeros of the
representation, leaving the numeric value unchanged. -/
def Decimal.normalize (d : Decimal) : Decimal := normLoop d.m d.e

theorem dval_decMul (a b : Decimal) : dval (decMul a b) = dval a * dval b := by
  unfold decMul dval
  push_cast
  rw [pow_add]
  rw [div_mul_div_comm]

theorem dval_shift (m : Int) (e k : Nat) : dval ⟨m * 10 ^ k, e + k⟩ = dval ⟨m, e⟩ := by
  unfold dval
  push_cast
  rw [pow_add]
  rw [mul_div_mul_right _ _ (by positivity : ((10 : ℚ) ^ k) ≠ 0)]

theorem dval_mk_add (x y : Int) (t : Nat) :
    dval ⟨x + y, t⟩ = dval ⟨x, t⟩ + dval ⟨y, t⟩ := by
  unfold dval
  push_cast
  rw [add_div]

theorem dval_mk_sub (x y : Int) (t : Nat) :
    dval ⟨x - y, t⟩ = dval ⟨x, t⟩ - dval ⟨y, t⟩ := by
  unfold dval
  push_cast
  rw [sub_div]

theorem dval_rescale (a : Decimal) (t : Nat) (h : a.e ≤ t) :
    dval ⟨a.m * 10 ^ (t - a.e), t⟩ = dval a := by
  obtain ⟨k, hk⟩ : ∃ k, t = a.e + k := ⟨t - a.e, by omega⟩
  subst hk
  rw [Nat.add_sub_cancel_left, dval_shift]

theorem dval_decAdd (a b : Decimal) : dval (decAdd a b) = dval a + dval b := by
  unfold decAdd
  rw [dval_mk_add, dval_rescale a _ (Nat.le_max_left _ _),
    dval_rescale b _ (Nat.le_max_right _ _)]

theorem dval_decSub (a b : Decimal) : dval (decSub a b) = dval a - dval b := by
  unfold decSub
  rw [dval_mk_sub, dval_rescale a _ (Nat.le_max_left _ _),
    dval_rescale b _ (Nat.le_max_right _ _)]

theorem dval_decDiv100 (d : Decimal) : dval (decDiv100 d) = dval d / 100 := by
  unfold decDiv100 dval
  rw [pow_add]
  norm_num
  rw [div_div]

theorem dval_decOne : dval decOne = 1 := by
  unfold decOne dval
  norm_num

theorem dval_decInt (n : Int) : dval (decInt n) = (n : ℚ) := by
  unfold decInt dval
  norm_num

/-- Model of `OrderBookEntity` (src/binance.rs lines 73-77): a price level of
the book, with its price and quantity. -/
structure OrderBookEntity where
  price : Decimal
  qty : Decimal
deriving DecidableEq

/-- Model of `OrderType` (src/state.rs lines 18-22). -/
inductive OrderType where
  | Ask
  | Bid
deriving DecidableEq

/-- Model of `TOP_LIMITS` (src/state.rs line 16). -/
def TOP_LIMITS : Nat := 10

/-- Model of `find_border_price` (src/state.rs lines 32-41). -/
def find_border_price (last_price depth : Decimal) (order_type : OrderType) : Decimal :=
  let depth := decDiv100 depth
  let percentage :=
    match order_type with
    | .Ask => decAdd decOne depth
    | .Bid => decSub decOne depth
  decMul last_price percentage

/-- The filter predicate inside `trim_order_book` (src/state.rs lines 49-52):
an ask survives iff `entry.price <= border_price`, a bid survives iff
`entry.price >= border_price`. -/
def keepEntry (border_price : Decimal) (order_type : OrderType) (entry : OrderBookEntity) : Bool :=
  match order_type with
  | .Ask => decide (dle entry.price border_price)
  | .Bid => decide (dle border_price entry.price)

/-- The map step inside `trim_order_book` (src/state.rs lines 53-56):
`entity.price = entity.price.trunc_with_scale(4).normalize()`, quantity
untouched. -/
def normEntity (entity : OrderBookEntity) : OrderBookEntity :=
  { entity with price := (entity.price.trunc_with_scale 4).normalize }

/-- Model of `trim_order_book` (src/state.rs lines 43-58): filter the book by
the band test, then rewrite each surviving price. -/
def trim_order_book (book : List OrderBookEntity) (border_price : Decimal)
    (order_type : OrderType) : List OrderBookEntity :=
  (book.filter (keepEntry border_price order_type)).map normEntity

/-- The sort order of `sort_and_filter` (src/state.rs line 62): the comparator
`|book1, book2| book2.qty.cmp(&book1.qty)` puts larger quantities first, so
`a` precedes `b` when `b.qty <= a.qty` by value. -/
def qtyGE (a b : OrderBookEntity) : Prop := dle b.qty a.qty

instance : DecidableRel qtyGE := fun a b => by unfold qtyGE; infer_instance

instance : IsTotal OrderBookEntity qtyGE :=
  ⟨fun a b => Int.le_total (b.qty.m * 10 ^ a.qty.e) (a.qty.m * 10 ^ b.qty.e)⟩

instance : IsTrans OrderBookEntity qtyGE :=
  ⟨fun _ _ _ hab hbc => (dle_iff _ _).mpr
    (le_trans ((dle_iff _ _).mp hbc) ((dle_iff _ _).mp hab))⟩

/-- Model of `sort_and_filter` (src/state.rs lines 60-64): `Vec::sort_by` is a
stable sort by the comparator, embedded as the stable `List.insertionSort`
with respect to the same total preorder, followed by `take(TOP_LIMITS)`. -/
def sort_and_filter (book : List OrderBookEntity) : List OrderBookEntity :=
  (List.insertionSort qtyGE book).take TOP_LIMITS

/-- Model of `process_order_book` (src/state.rs lines 66-75). -/
def process_order_book (book : List OrderBookEntity) (last_price depth : Decimal)
    (order_type : OrderType) : List OrderBookEntity :=
  let border_price := find_border_price last_price depth order_type
  let entities := trim_order_book book border_price order_type
  sort_and_filter entities

/-- Inserting an element whose `P`-class precedes (by `r`) every `P`-element:
the `P`-filtered result gains `a` at the front. -/
theorem filter_orderedInsert (r : α → α → Prop) [DecidableRel r] (P : α → Bool)
    (a : α) (l : List α) (ha : P a = true) (hcl : ∀ x, P x = true → r a x) :
    (List.orderedInsert r a l).filter P = a :: l.filter P := by
  induction l with
  | nil => simp [List.orderedInsert, ha]
  | cons b t ih =>
    by_cases hr : r a b
    · simp [List.orderedInsert, hr, ha]
    · have hb : P b = false := by
        cases hPb : P b
        · rfl
        · exact absurd (hcl b hPb) hr
      simp [List.orderedInsert, hr, hb, ih, List.filter_cons]

/-- Inserting an element outside the `P`-class leaves the `P`-filter unchanged. -/
theorem filter_orderedInsert_neg (r : α → α → Prop) [DecidableRel r] (P : α → Bool)
    (a : α) (l : List α) (ha : P a = false) :
    (List.orderedInsert r a l).filter P = l.filter P := by
  induction l with
  | nil => simp [List.orderedInsert, ha]
  | cons b t ih =>
    by_cases hr : r a b
    · simp [List.orderedInsert, hr, ha]
    · simp [List.orderedInsert, hr, ih, List.filter_cons]

/-- Stability of `List.insertionSort`: the subsequence of any class of
mutually `r`-equivalent elements is preserved verbatim. -/
theorem filter_insertionSort (r : α → α → Prop) [DecidableRel r] (P : α → Bool)
    (hP : ∀ x y, P x = true → P y = true → r x y) (l : List α) :
    (List.insertionSort r l).filter P = l.filter P := by
  induction l with
  | nil => rfl
  | cons a t ih =>
    cases hPa : P a
    · rw [List.insertionSort, filter_orderedInsert_neg r P a _ hPa, ih]
      simp [List.filter_cons, hPa]
    · rw [List.insertionSort,
        filter_orderedInsert r P a _ hPa (fun x hx => hP a x hPa hx), ih]
      simp [List.filter_cons, hPa]

/-- C1: in the depth filter's normalize step, each entry surviving the trim
has its price truncated (not rounded) to scale 4 with trailing zeros
stripped, and its quantity passed through unmodified: every output entry of
`process_order_book` has the truncated-normalized price of some surviving
input entry and that entry's quantity. -/
theorem claim_C1 (book : List OrderBookEntity) (last_price depth : Decimal)
    (order_type : OrderType) (e : OrderBookEntity)
    (h : e ∈ process_order_book book last_price depth order_type) :
    ∃ i, i ∈ book
      ∧ keepEntry (find_border_price last_price depth order_type) order_type i = true
      ∧ e.price = (i.price.trunc_with_scale 4).normalize
      ∧ e.qty = i.qty := by
  unfold process_order_book sort_and_filter at h
  have h1 := List.take_subset _ _ h
  rw [List.mem_insertionSort] at h1
  unfold trim_order_book at h1
  rw [List.mem_map] at h1
  obtain ⟨i, hi, hni⟩ := h1
  rw [List.mem_filter] at hi
  exact ⟨i, hi.1, hi.2, by rw [← hni]; rfl, by rw [← hni]; rfl⟩

theorem claim_C1_witness :
    (⟨⟨150, 0⟩, ⟨10, 0⟩⟩ : OrderBookEntity) ∈ process_order_book
        [⟨⟨100, 0⟩, ⟨1, 0⟩⟩, ⟨⟨150, 0⟩, ⟨10, 0⟩⟩, ⟨⟨200, 0⟩, ⟨2, 0⟩⟩, ⟨⟨250, 0⟩, ⟨1, 0⟩⟩]
        ⟨200, 0⟩ ⟨10, 0⟩ .Ask
    ∧ ∃ i, i ∈ [(⟨⟨100, 0⟩, ⟨1, 0⟩⟩ : OrderBookEntity), ⟨⟨150, 0⟩, ⟨10, 0⟩⟩,
          ⟨⟨200, 0⟩, ⟨2, 0⟩⟩, ⟨⟨250, 0⟩, ⟨1, 0⟩⟩]
      ∧ keepEntry (find_border_price ⟨200, 0⟩ ⟨10, 0⟩ .Ask) .Ask i = true
      ∧ (⟨⟨150, 0⟩, ⟨10, 0⟩⟩ : OrderBookEntity).price = (i.price.trunc_with_scale 4).normalize
      ∧ (⟨⟨150, 0⟩, ⟨10, 0⟩⟩ : OrderBookEntity).qty = i.qty :=
  ⟨by decide, claim_C1 _ _ _ _ _ (by decide)⟩

/-- C2: rank-and-bound: the output length equals `min 10 (surviving count)`,
the output is sorted by quantity non-increasing, and entries of any fixed
quantity value appear as a subsequence of the surviving entries in their
original relative order (stability). -/
theorem claim_C2 (book : List OrderBookEntity) (last_price depth : Decimal)
    (order_type : OrderType) :
    (process_order_book book last_price depth order_type).length
      = min 10 (trim_order_book book (find_border_price last_price depth order_type)
          order_type).length
    ∧ (process_order_book book last_price depth order_type).Pairwise
        (fun a b => dval b.qty ≤ dval a.qty)
    ∧ ∀ q : Decimal,
        List.Sublist
          ((process_order_book book last_price depth order_type).filter
            (fun e => decide (deq e.qty q)))
          ((trim_order_book book (find_border_price last_price depth order_type)
              order_type).filter (fun e => decide (deq e.qty q))) := by
  refine ⟨?_, ?_, ?_⟩
  · simp [process_order_book, sort_and_filter, TOP_LIMITS, List.length_take,
      List.length_insertionSort]
  · have hs : (List.insertionSort qtyGE (trim_order_book book
        (find_border_price last_price depth order_type) order_type)).Pairwise qtyGE :=
      List.sorted_insertionSort qtyGE _
    have ht := List.Pairwise.sublist (List.take_sublist TOP_LIMITS _) hs
    exact ht.imp (fun hab => (dle_iff _ _).mp hab)
  · intro q
    have hP : ∀ x y : OrderBookEntity, decide (deq x.qty q) = true →
        decide (deq y.qty q) = true → qtyGE x y := by
      intro x y hx hy
      have hx' := (deq_iff _ _).mp (of_decide_eq_true hx)
      have hy' := (deq_iff _ _).mp (of_decide_eq_true hy)
      exact (dle_iff _ _).mpr (le_of_eq (hy'.trans hx'.symm))
    have heq := filter_insertionSort qtyGE (fun e => decide (deq e.qty q)) hP
      (trim_order_book book (find_border_price last_price depth order_type) order_type)
    have hsub := (List.take_sublist TOP_LIMITS
      (List.insertionSort qtyGE (trim_order_book book
        (find_border_price last_price depth order_type) order_type))).filter
      (fun e => decide (deq e.qty q))
    rw [heq] at hsub
    exact hsub

/-- C3: the trim is boundary-inclusive: an ask survives iff its price is at
most the border value, a bid survives iff its price is at least the border
value; in particular an entry whose price equals the border value (in any
representation) is kept on both sides. -/
theorem claim_C3 (border : Decimal) (e : OrderBookEntity) (h : deq e.price border) :
    (∀ x : OrderBookEntity, keepEntry border .Ask x = true ↔ dval x.price ≤ dval border)
    ∧ (∀ x : OrderBookEntity, keepEntry border .Bid x = true ↔ dval border ≤ dval x.price)
    ∧ (∀ book, trim_order_book book border .Ask
        = (book.filter fun x => decide (dval x.price ≤ dval border)).map normEntity)
    ∧ (∀ book, trim_order_book book border .Bid
        = (book.filter fun x => decide (dval border ≤ dval x.price)).map normEntity)
    ∧ trim_order_book [e] border .Ask = [normEntity e]
    ∧ trim_order_book [e] border .Bid = [normEntity e] := by
  have hask : ∀ x : OrderBookEntity,
      keepEntry border .Ask x = true ↔ dval x.price ≤ dval border := by
    intro x
    unfold keepEntry
    rw [decide_eq_true_eq]
    exact dle_iff _ _
  have hbid : ∀ x : OrderBookEntity,
      keepEntry border .Bid x = true ↔ dval border ≤ dval x.price := by
    intro x
    unfold keepEntry
    rw [decide_eq_true_eq]
    exact dle_iff _ _
  have h1 : dle e.price border := (dle_iff _ _).mpr (le_of_eq ((deq_iff _ _).mp h))
  have h2 : dle border e.price := (dle_iff _ _).mpr (le_of_eq ((deq_iff _ _).mp h).symm)
  refine ⟨hask, hbid, ?_, ?_, ?_, ?_⟩
  · intro book
    unfold trim_order_book
    rw [List.filter_congr (fun x _ => ?_)]
    rw [show (decide (dval x.price ≤ dval border)) = keepEntry border .Ask x from ?_]
    rw [Bool.eq_iff_iff, decide_eq_true_eq]
    exact (hask x).symm
  · intro book
    unfold trim_order_book
    rw [List.filter_congr (fun x _ => ?_)]
    rw [show (decide (dval border ≤ dval x.price)) = keepEntry border .Bid x from ?_]
    rw [Bool.eq_iff_iff, decide_eq_true_eq]
    exact (hbid x).symm
  · simp [trim_order_book, keepEntry, h1]
  · simp [trim_order_book, keepEntry, h2]

theorem claim_C3_witness :
    deq (⟨⟨1000, 1⟩, ⟨1, 0⟩⟩ : OrderBookEntity).price ⟨100, 0⟩
    ∧ ((∀ x : OrderBookEntity,
          keepEntry ⟨100, 0⟩ .Ask x = true ↔ dval x.price ≤ dval ⟨100, 0⟩)
      ∧ (∀ x : OrderBookEntity,
          keepEntry ⟨100, 0⟩ .Bid x = true ↔ dval ⟨100, 0⟩ ≤ dval x.price)
      ∧ (∀ book, trim_order_book book ⟨100, 0⟩ .Ask
          = (book.filter fun x => decide (dval x.price ≤ dval ⟨100, 0⟩)).map normEntity)
      ∧ (∀ book, trim_order_book book ⟨100, 0⟩ .Bid
          = (book.filter fun x => decide (dval ⟨100, 0⟩ ≤ dval x.price)).map normEntity)
      ∧ trim_order_book [⟨⟨1000, 1⟩, ⟨1, 0⟩⟩] ⟨100, 0⟩ .Ask
          = [normEntity ⟨⟨1000, 1⟩, ⟨1, 0⟩⟩]
      ∧ trim_order_book [⟨⟨1000, 1⟩, ⟨1, 0⟩⟩] ⟨100, 0⟩ .Bid
          = [normEntity ⟨⟨1000, 1⟩, ⟨1, 0⟩⟩]) :=
  ⟨by decide, claim_C3 _ _ (by decide)⟩

/-- C4: for depth in `(0, 100]` and a positive last price, the borders are
exactly `lastPrice * (1 + depth/100)` and `lastPrice * (1 - depth/100)` as
rational numbers (the decimal arithmetic is exact), and
`askBorder >= lastPrice >= bidBorder`. -/
theorem claim_C4 (last_price depth : Decimal) (h1 : dlt (decInt 0) depth)
    (h2 : dle depth (decInt 100)) (h3 : dlt (decInt 0) last_price) :
    dval (find_border_price last_price depth .Ask)
        = dval last_price * (1 + dval depth / 100)
    ∧ dval (find_border_price last_price depth .Bid)
        = dval last_price * (1 - dval depth / 100)
    ∧ dval last_price ≤ dval (find_border_price last_price depth .Ask)
    ∧ dval (find_border_price last_price depth .Bid) ≤ dval last_price := by
  have hd : (0 : ℚ) < dval depth := by
    have := (dlt_iff _ _).mp h1
    rwa [dval_decInt, Int.cast_zero] at this
  have hd100 : dval depth ≤ 100 := by
    have := (dle_iff _ _).mp h2
    rwa [dval_decInt, Int.cast_ofNat] at this
  have hl : (0 : ℚ) < dval last_price := by
    have := (dlt_iff _ _).mp h3
    rwa [dval_decInt, Int.cast_zero] at this
  have ea : find_border_price last_price depth .Ask
      = decMul last_price (decAdd decOne (decDiv100 depth)) := rfl
  have eb : find_border_price last_price depth .Bid
      = decMul last_price (decSub decOne (decDiv100 depth)) := rfl
  have ha : dval (find_border_price last_price depth .Ask)
      = dval last_price * (1 + dval depth / 100) := by
    rw [ea, dval_decMul, dval_decAdd, dval_decDiv100, dval_decOne]
  have hb : dval (find_border_price last_price depth .Bid)
      = dval last_price * (1 - dval depth / 100) := by
    rw [eb, dval_decMul, dval_decSub, dval_decDiv100, dval_decOne]
  refine ⟨ha, hb, ?_, ?_⟩
  · rw [ha]; nlinarith
  · rw [hb]; nlinarith

theorem claim_C4_witness :
    dlt (decInt 0) (⟨10, 0⟩ : Decimal) ∧ dle (⟨10, 0⟩ : Decimal) (decInt 100)
    ∧ dlt (decInt 0) (⟨200, 0⟩ : Decimal)
    ∧ (dval (find_border_price ⟨200, 0⟩ ⟨10, 0⟩ .Ask)
          = dval ⟨200, 0⟩ * (1 + dval ⟨10, 0⟩ / 100)
      ∧ dval (find_border_price ⟨200, 0⟩ ⟨10, 0⟩ .Bid)
          = dval ⟨200, 0⟩ * (1 - dval ⟨10, 0⟩ / 100)
      ∧ dval ⟨200, 0⟩ ≤ dval (find_border_price ⟨200, 0⟩ ⟨10, 0⟩ .Ask)
      ∧ dval (find_border_price ⟨200, 0⟩ ⟨10, 0⟩ .Bid) ≤ dval ⟨200, 0⟩) :=
  ⟨by decide, by decide, by decide, claim_C4 _ _ (by decide) (by decide) (by decide)⟩

deriving instance DecidableEq for Except

/-- Model of `ServiceError` (src/error.rs lines 5-11). -/
inductive ServiceError where
  | SymbolNotFound (symbol : String)
  | UnsupportedSymbol (symbol : String)
  | Unauthorized
  | Internal (msg : String)
deriving DecidableEq

/-- Model of `OrderBook` (src/binance.rs lines 79-83). -/
structure OrderBook where
  asks : List OrderBookEntity
  bids : List OrderBookEntity
deriving DecidableEq

/-- Model of `BinanceExchangeSymbol` (src/binance.rs lines 153-157). -/
structure BinanceExchangeSymbol where
  symbol : String
  status : String
deriving DecidableEq

/-- `Char.toUpper` (the ASCII case map used to model Rust's per-character
uppercasing) is idempotent. -/
theorem toUpper_idem (c : Char) : c.toUpper.toUpper = c.toUpper := by
  unfold Char.toUpper
  by_cases h : c.toNat ≥ 97 ∧ c.toNat ≤ 122
  · rw [if_pos h]
    have hv : (c.toNat - 32).isValidChar := Or.inl (by omega)
    have ht : (Char.ofNat (c.toNat - 32)).toNat = c.toNat - 32 := by
      rw [Char.ofNat, dif_pos hv]
      rfl
    rw [if_neg]
    rw [ht]
    omega
  · rw [if_neg h, if_neg h]

/-- Model of `str::to_uppercase` (src/state.rs line 145): uppercase each
character. -/
def strUpper (s : String) : String := ⟨s.data.map Char.toUpper⟩

/-- Model of `str::ends_with` (src/state.rs line 147): a suffix test on the
underlying character sequence. -/
def sEndsWith (s t : String) : Bool := decide (t.data.IsSuffix s.data)

theorem strUpper_strUpper (s : String) : strUpper (strUpper s) = strUpper s := by
  unfold strUpper
  show String.mk ((s.data.map Char.toUpper).map Char.toUpper)
      = String.mk (s.data.map Char.toUpper)
  rw [List.map_map]
  exact congrArg String.mk (List.map_congr_left fun a _ => toUpper_idem a)

theorem strUpper_append (a b : String) : strUpper (a ++ b) = strUpper a ++ strUpper b := by
  cases a with | mk la =>
  cases b with | mk lb =>
  show String.mk ((la ++ lb).map Char.toUpper)
      = String.mk (la.map Char.toUpper ++ lb.map Char.toUpper)
  rw [List.map_append]

theorem strUpper_USDT : strUpper "USDT" = "USDT" := by decide

theorem sEndsWith_append (a : String) : sEndsWith (a ++ "USDT") "USDT" = true := by
  unfold sEndsWith
  rw [decide_eq_true_eq]
  show List.IsSuffix "USDT".data (a ++ "USDT").data
  have hd : (a ++ "USDT").data = a.data ++ "USDT".data := by
    cases a with | mk la => rfl
  rw [hd]
  exact List.suffix_append a.data "USDT".data

/-- Model of `DEPTH_EXEPCTIONS` (src/state.rs line 15), the fixed denylist of
symbols unsupported for depth filtering. -/
def DEPTH_EXEPCTIONS : List String := ["BTCUSDT", "ETHUSDT", "WBTCUSDT", "WETHUSDT"]

/-- The normalization step of `validate_symbol` (src/state.rs lines 145-151):
uppercase, then append `"USDT"` unless the symbol already ends with it. -/
def normalize_symbol (symbol : String) : String :=
  if sEndsWith (strUpper symbol) "USDT" = true then strUpper symbol
  else strUpper symbol ++ "USDT"

/-- Model of `AppState::validate_symbol` (src/state.rs lines 144-163).  The
registry's `HashSet<String>` is modelled membership-wise by a list; the
source's `let` bindings are inlined. -/
def validate_symbol (trading_pairs : List String) (symbol : String) :
    Except ServiceError String :=
  if normalize_symbol symbol ∈ DEPTH_EXEPCTIONS then
    .error (.UnsupportedSymbol (normalize_symbol symbol))
  else if normalize_symbol symbol ∈ trading_pairs then .ok (normalize_symbol symbol)
  else .error (.SymbolNotFound (normalize_symbol symbol))

/-- Model of `AppState::get_usdt_trading_pairs` (src/state.rs lines 94-105),
applied to the symbol list returned by the exchange: keep entries whose
status is exactly `"TRADING"` and whose symbol ends with `"USDT"`. -/
def get_usdt_trading_pairs (exch_info : List BinanceExchangeSymbol) : List String :=
  (exch_info.filter fun item =>
      decide (item.status = "TRADING") && sEndsWith item.symbol "USDT").map
    (fun item => item.symbol)

/-- One cycle of `periodic_exchange_info_update` (src/state.rs lines 166-181),
as a function of the fetch outcome: on failure the registry is unchanged, on
success the filtered symbols are unioned in (`HashSet::extend`, modelled
membership-wise by list append). -/
def refresh_step (trading_pairs : List String)
    (fetched : Except ServiceError (List BinanceExchangeSymbol)) : List String :=
  match fetched with
  | .error _ => trading_pairs
  | .ok data => trading_pairs ++ get_usdt_trading_pairs data

/-- Model of `Redis::get_order_book` (src/redis.rs lines 24-39) as a function
of the raw cache-read outcome and of the deserializer: a present value that
fails to deserialize becomes `Internal` (the `From` impl in src/error.rs
wraps the serde error message), a missing value is `Ok(None)`. -/
def redis_get_order_book (raw : Except ServiceError (Option String))
    (deser : String → Except String OrderBook) : Except ServiceError (Option OrderBook) :=
  match raw with
  | .error e => .error e
  | .ok none => .ok none
  | .ok (some s) =>
    match deser s with
    | .ok book => .ok (some book)
    | .error msg => .error (.Internal msg)

/-- Model of `AppState::get_order_book` (src/state.rs lines 107-122) as a
function of the collaborator outcomes: cache hit returns the cached book; on
a true miss the live fetch result is returned, with the cache-write outcome
(`redis_write`) logged and discarded (`let _ = ... .map_err(...)`). -/
def get_order_book (redis_ob : Except ServiceError (Option OrderBook))
    (binance_ob : Except ServiceError OrderBook)
    (redis_write : Except ServiceError Unit) : Except ServiceError OrderBook :=
  match redis_ob with
  | .error e => .error e
  | .ok (some ob) => .ok ob
  | .ok none =>
    match binance_ob with
    | .ok book => .ok book
    | .error e => .error e

/-- C5: a present cache value that fails to deserialize makes the whole read
fail with `Internal` — independently of the live-fetch outcome, so no live
fetch is fallen through to — while a true miss (store returns no value) uses
the live fetch. -/
theorem claim_C5 (s msg : String) (deser : String → Except String OrderBook)
    (fetched : Except ServiceError OrderBook) (write : Except ServiceError Unit)
    (book : OrderBook) (h : deser s = .error msg) :
    get_order_book (redis_get_order_book (.ok (some s)) deser) fetched write
        = .error (.Internal msg)
    ∧ get_order_book (redis_get_order_book (.ok none) deser) (.ok book) write
        = .ok book := by
  constructor
  · simp [get_order_book, redis_get_order_book, h]
  · rfl

theorem claim_C5_witness :
    ((fun _ : String => (.error "boom" : Except String OrderBook)) "corrupt"
        = .error "boom")
    ∧ (get_order_book
          (redis_get_order_book (.ok (some "corrupt")) (fun _ => .error "boom"))
          (.error (.Internal "unused")) (.ok ()) = .error (.Internal "boom")
      ∧ get_order_book (redis_get_order_book (.ok none) (fun _ => .error "boom"))
          (.ok ⟨[], []⟩) (.ok ()) = .ok ⟨[], []⟩) :=
  ⟨rfl, claim_C5 _ _ _ _ _ _ rfl⟩

/-- C6: after a true cache miss and a successful live fetch, the fetched
snapshot is returned whatever the cache-write outcome is: the write failure
is swallowed and never fails the operation. -/
theorem claim_C6 (book : OrderBook) (deser : String → Except String OrderBook)
    (write : Except ServiceError Unit) :
    get_order_book (redis_get_order_book (.ok none) deser) (.ok book) write
        = .ok book := rfl

/-- C7: `validate_symbol` normalizes by uppercasing and appending `"USDT"`
when missing; a denylisted normalized symbol fails with `UnsupportedSymbol`
regardless of registry membership, otherwise presence in the registry decides
between `Ok` and `SymbolNotFound`; concretely `"sol"` validates to
`"SOLUSDT"` when registered and `"btc"` is denylisted as `"BTCUSDT"` for any
registry. -/
theorem claim_C7 (trading_pairs : List String) (s : String) :
    (validate_symbol trading_pairs s = .ok (normalize_symbol s)
        ↔ normalize_symbol s ∉ DEPTH_EXEPCTIONS ∧ normalize_symbol s ∈ trading_pairs)
    ∧ (validate_symbol trading_pairs s
          = .error (.UnsupportedSymbol (normalize_symbol s))
        ↔ normalize_symbol s ∈ DEPTH_EXEPCTIONS)
    ∧ (validate_symbol trading_pairs s
          = .error (.SymbolNotFound (normalize_symbol s))
        ↔ normalize_symbol s ∉ DEPTH_EXEPCTIONS ∧ normalize_symbol s ∉ trading_pairs)
    ∧ validate_symbol ["SOLUSDT"] "sol" = .ok "SOLUSDT"
    ∧ validate_symbol trading_pairs "btc" = .error (.UnsupportedSymbol "BTCUSDT") := by
  refine ⟨?_, ?_, ?_, by decide, ?_⟩
  · unfold validate_symbol
    split_ifs with hd hp <;> simp_all
  · unfold validate_symbol
    split_ifs with hd hp <;> simp_all
  · unfold validate_symbol
    split_ifs with hd hp <;> simp_all
  · have hn : normalize_symbol "btc" = "BTCUSDT" := by decide
    unfold validate_symbol
    rw [hn]
    rw [if_pos (by decide : ("BTCUSDT" : String) ∈ DEPTH_EXEPCTIONS)]

/-- C8: each refresh keeps only entries with status exactly `"TRADING"` and
symbol suffix `"USDT"` and unions them into the registry; no refresh outcome
removes a present symbol, and after refreshes with outputs `A` then `B` the
visible set contains the union of both outputs. -/
theorem claim_C8 (S : List String) (A B : List BinanceExchangeSymbol)
    (fetched : Except ServiceError (List BinanceExchangeSymbol)) :
    get_usdt_trading_pairs A ⊆ refresh_step (refresh_step S (.ok A)) (.ok B)
    ∧ get_usdt_trading_pairs B ⊆ refresh_step (refresh_step S (.ok A)) (.ok B)
    ∧ S ⊆ refresh_step S fetched
    ∧ ∀ x, x ∈ get_usdt_trading_pairs A
        ↔ ∃ item, item ∈ A ∧ item.status = "TRADING"
            ∧ sEndsWith item.symbol "USDT" = true ∧ item.symbol = x := by
  refine ⟨?_, ?_, ?_, ?_⟩
  · intro x hx
    simp only [refresh_step, List.mem_append]
    tauto
  · intro x hx
    simp only [refresh_step, List.mem_append]
    tauto
  · intro x hx
    cases fetched <;> simp only [refresh_step, List.mem_append] <;> tauto
  · intro x
    simp only [get_usdt_trading_pairs, List.mem_map, List.mem_filter,
      Bool.and_eq_true, decide_eq_true_eq]
    tauto

/-- Idempotence of the symbol normalization inside `validate_symbol`. -/
theorem normalize_symbol_idem (s : String) :
    normalize_symbol (normalize_symbol s) = normalize_symbol s := by
  by_cases h : sEndsWith (strUpper s) "USDT" = true
  · have e1 : normalize_symbol s = strUpper s := by
      unfold normalize_symbol
      rw [if_pos h]
    rw [e1]
    unfold normalize_symbol
    rw [strUpper_strUpper, if_pos h, e1.symm, e1]
  · have e2 : normalize_symbol s = strUpper s ++ "USDT" := by
      unfold normalize_symbol
      rw [if_neg h]
    rw [e2]
    unfold normalize_symbol
    rw [strUpper_append, strUpper_strUpper, strUpper_USDT]
    rw [if_pos (sEndsWith_append _)]

/-- C10: symbol validation is idempotent: if `validate_symbol` succeeds with
normalized symbol `n`, validating `n` again succeeds and returns `n`. -/
theorem claim_C10 (trading_pairs : List String) (s n : String)
    (h : validate_symbol trading_pairs s = .ok n) :
    validate_symbol trading_pairs n = .ok n := by
  unfold validate_symbol at h
  by_cases hd : normalize_symbol s ∈ DEPTH_EXEPCTIONS
  · rw [if_pos hd] at h
    exact absurd h (by simp)
  · rw [if_neg hd] at h
    by_cases hp : normalize_symbol s ∈ trading_pairs
    · rw [if_pos hp] at h
      have hn : n = normalize_symbol s := by
        injection h with h'
        exact h'.symm
      subst hn
      unfold validate_symbol
      rw [normalize_symbol_idem, if_neg hd, if_pos hp]
    · rw [if_neg hp] at h
      exact absurd h (by simp)

theorem claim_C10_witness :
    validate_symbol ["SOLUSDT"] "sol" = .ok "SOLUSDT"
    ∧ validate_symbol ["SOLUSDT"] "SOLUSDT" = .ok "SOLUSDT" :=
  ⟨by decide, claim_C10 ["SOLUSDT"] "sol" "SOLUSDT" (by decide)⟩

/-- C9: band membership is decided on the pre-truncation price and the price
is truncated only afterwards: with last price `100`, depth `0.00005` and a
bid at `99.99999`, the bid border is `99.99995`, the entry is kept, and its
displayed output price `99.9999` is strictly below the border. -/
theorem claim_C9 :
    process_order_book [⟨⟨9999999, 5⟩, ⟨1, 0⟩⟩] ⟨100, 0⟩ ⟨5, 5⟩ .Bid
        = [⟨⟨999999, 4⟩, ⟨1, 0⟩⟩]
    ∧ keepEntry (find_border_price ⟨100, 0⟩ ⟨5, 5⟩ .Bid) .Bid ⟨⟨9999999, 5⟩, ⟨1, 0⟩⟩ = true
    ∧ dlt ⟨999999, 4⟩ (find_border_price ⟨100, 0⟩ ⟨5, 5⟩ .Bid) := by
  decide

end Total3
